import Mathlib

/-!
# A shallow embedding of the `gopoolx` worker pool

This file embeds the core of the `gopoolx` Go package (a bounded-concurrency
task executor) as executable Lean definitions and proves properties of the
embedding.

Modelling decisions, stated once:

* Go's `error` values are modelled by `Option Err` (`nil` = `none`); `Err` is
  an inductive whose constructors stand for the distinguishable error values
  that occur in the code (`ErrQueueFull`, opaque task errors, the wrapping
  produced by `panicError`, and `ctx.Err()`).
* A Go `Task` (`func(ctx) error`) is modelled by its observable behaviour: a
  function from the attempt index to the outcome of that invocation (normal
  return carrying an `Option Err`, or a panic carrying the panic message).
  A result-bearing producer (`func(ctx) (T, error)`) analogously returns a
  value (modelled at type `Int`, whose Go zero value is `0`) or panics.
* The scheduler nondeterminism of a non-blocking channel send (`select` with
  `default`) is resolved by an explicit oracle argument `enqOk : Bool`,
  meaning "the non-blocking send would succeed here" (buffer has room or a
  worker is ready to receive).  Under the blocking `QueueFullWait` policy a
  send always (eventually) succeeds and is modelled as an append.
* `sync.WaitGroup` is a counter field `wg`; `wg.Wait()` returns exactly when
  the counter is zero, which the predicate `wgWaitReturns` records.
* The `done` channel of a `Future` is a `Bool` (`true` = closed); Go's
  fatal `close of closed channel` is surfaced as an explicit panic flag.
* The ghost fields `completeCalls` (on a future) and `closeCalls` (on the
  pool) count invocations of `Future.complete` and of `close(p.tasks)`;
  they instrument the model and influence nothing.
* `SubmitWithResult` is embedded from the source text shipped in the
  repository's `README_ZH.md` (the function is part of the package; its body
  is quoted verbatim there).
-/

namespace Gopoolx

/-- Error values, modelling Go `error` results (`nil` = `Option.none` around
this type). `taskErr n` is an opaque error value returned by a task;
`panicked s` is the error built by `panicError` (Go:
`fmt.Errorf("task panic: %v", r)`) from a panic value `s`;
`ctxCanceled` is `ctx.Err()` of a done context. -/
inductive Err where
  | errQueueFull : Err
  | taskErr : Nat → Err
  | panicked : String → Err
  | ctxCanceled : Err
deriving DecidableEq, Repr

/-- `panicError` (errors.go): wraps a panic value into an error. -/
def panicError (r : String) : Err := Err.panicked r

/-- The message of Go's runtime panic on `close` of an already-closed
channel. -/
def closedChanMsg : String := "close of closed channel"

/-- Outcome of one invocation of a plain `Task`: a normal return carrying
the returned `error`, or a panic carrying the panic value. -/
inductive Outcome where
  | ret : Option Err → Outcome
  | panics : String → Outcome
deriving DecidableEq

/-- Behaviour of a plain task: the outcome of its `i`-th invocation
(0-indexed attempt number). -/
def PlainBeh : Type := Nat → Outcome

/-- Outcome of one invocation of a typed producer
`func(ctx) (T, error)` (modelled at `T = Int`). -/
inductive ProdOutcome where
  | ret : Int → Option Err → ProdOutcome
  | panics : String → ProdOutcome
deriving DecidableEq

/-- Behaviour of a result-bearing producer, indexed by invocation number. -/
def ProdBeh : Type := Nat → ProdOutcome

/-- The state of a `Future[T]` (future.go) at `T = Int`: the `result` and
`err` fields, the `done` channel modelled as "has been closed", and the
ghost invocation counter `completeCalls`. -/
structure FutureSt where
  result : Int
  err : Option Err
  done : Bool
  completeCalls : Nat
deriving DecidableEq, Repr

/-- `newFuture` (future.go): a pending future. -/
def newFuture : FutureSt :=
  { result := 0, err := none, done := false, completeCalls := 0 }

/-- `Future.complete` (future.go): sets `result` and `err`, then closes
`done`.  Returns the updated future and whether the `close` panicked
(it does exactly when `done` was already closed). -/
def FutureSt.complete (f : FutureSt) (v : Int) (e : Option Err) :
    FutureSt × Bool :=
  ({ result := v, err := e, done := true,
     completeCalls := f.completeCalls + 1 }, f.done)

/-- Result of a call to `Future.Get`: either the caller blocks (neither
channel is ready), or a value/error pair is returned. -/
inductive GetResult where
  | blocked : GetResult
  | value : Int → Option Err → GetResult
deriving DecidableEq, Repr

/-- `Future.Get` (future.go): a `select` racing `ctx.Done()` against
`f.done`.  `ctxDone` says whether the context is already done; when both
channels are ready Go picks a case pseudo-randomly, resolved here by the
oracle `pick` (`true` = the `ctx.Done()` case wins). -/
def FutureSt.get (f : FutureSt) (ctxDone : Bool) (pick : Bool) : GetResult :=
  if ctxDone && f.done then
    if pick then GetResult.value 0 (some Err.ctxCanceled)
    else GetResult.value f.result f.err
  else if ctxDone then GetResult.value 0 (some Err.ctxCanceled)
  else if f.done then GetResult.value f.result f.err
  else GetResult.blocked

/-- A task in the pool's queue: either a plain submitted task, or the
wrapper that `SubmitWithResult` builds around a producer, carrying the
index of its future in the pool's future store. -/
inductive Task where
  | plain : PlainBeh → Task
  | resultBearing : Nat → ProdBeh → Task

/-- `QueueFullPolicy` (options.go). -/
inductive QueueFullPolicy where
  | wait : QueueFullPolicy
  | discard : QueueFullPolicy
  | returnError : QueueFullPolicy
deriving DecidableEq, Repr

/-- `ErrorCollector.Add` (errors.go): appends a non-nil error under the
collector's lock; a nil error is ignored. -/
def errsAdd (errs : List Err) (e : Option Err) : List Err :=
  match e with
  | none => errs
  | some e => errs ++ [e]

/-- The state of a `Pool` (pool.go).  `queue` is the `tasks` channel's
content, `wg` the `sync.WaitGroup` counter, `errs` the `ErrorCollector`,
`onceUsed` the `sync.Once` guard, `tasksClosed` whether the channel has
been closed, `futures` the store of futures created by `SubmitWithResult`
(a future is referred to by its index), and `closeCalls` the ghost count
of executed `close(p.tasks)` operations. -/
structure PoolState where
  workerNum : Nat
  queueSize : Nat
  policy : QueueFullPolicy
  retry : Nat
  queue : List Task
  wg : Nat
  errs : List Err
  onceUsed : Bool
  tasksClosed : Bool
  closeCalls : Nat
  futures : List FutureSt

namespace PoolState

/-- `New` (pool.go): a fresh pool with the given configuration. -/
def New (workerNum queueSize : Nat) (policy : QueueFullPolicy)
    (retry : Nat) : PoolState :=
  { workerNum := workerNum, queueSize := queueSize, policy := policy,
    retry := retry, queue := [], wg := 0, errs := [], onceUsed := false,
    tasksClosed := false, closeCalls := 0, futures := [] }

/-- `Pool.Submit` (pool.go): `wg.Add(1)`, then a policy-dependent enqueue.
`enqOk` resolves whether the non-blocking send in the `Discard` /
`ReturnError` branches succeeds.  Returns the new state and the returned
`error`. -/
def Submit (p : PoolState) (t : Task) (enqOk : Bool) :
    PoolState × Option Err :=
  let p1 : PoolState := { p with wg := p.wg + 1 }
  match p.policy with
  | QueueFullPolicy.discard =>
      if enqOk then ({ p1 with queue := p1.queue ++ [t] }, none)
      else ({ p1 with wg := p1.wg - 1 }, none)
  | QueueFullPolicy.returnError =>
      if enqOk then ({ p1 with queue := p1.queue ++ [t] }, none)
      else ({ p1 with
                wg := p1.wg - 1,
                errs := errsAdd p1.errs (some Err.errQueueFull) },
            some Err.errQueueFull)
  | QueueFullPolicy.wait =>
      ({ p1 with queue := p1.queue ++ [t] }, none)

/-- `Pool.Errors` (pool.go): a snapshot copy of the collected errors
(lists are values here, so the copy is the list itself). -/
def Errors (p : PoolState) : List Err := p.errs

end PoolState

/-- One invocation of the Go function value stored in the queue (one attempt
of the retry loop).  For a plain task this is just its behaviour.  For the
`SubmitWithResult` wrapper (README_ZH.md) it runs the producer and, in a
deferred block, completes the future:

* producer returns `(v, e)`: the defer calls `future.complete(v, e)`; if
  the future was already completed that `close` panics (propagating out of
  the wrapper as a `close of closed channel` panic, the fields having
  already been overwritten); otherwise the wrapper returns `e`;
* producer panics with `m`: `recover` consumes the panic and the defer
  calls `future.complete(zero, panicError(m))`; on the double-complete the
  same `close` panic propagates; otherwise the wrapper returns normally
  with the zero value of its unnamed `error` result, i.e. `nil`. -/
def runTaskOnce (fs : List FutureSt) (t : Task) (i : Nat) :
    List FutureSt × Outcome :=
  match t with
  | Task.plain beh => (fs, beh i)
  | Task.resultBearing fid prod =>
      match fs.get? fid with
      | none => (fs, Outcome.ret none)
      | some f =>
          match prod i with
          | ProdOutcome.ret v e =>
              let c := f.complete v e
              (fs.set fid c.1,
               if c.2 then Outcome.panics closedChanMsg else Outcome.ret e)
          | ProdOutcome.panics m =>
              let c := f.complete 0 (some (panicError m))
              (fs.set fid c.1,
               if c.2 then Outcome.panics closedChanMsg else Outcome.ret none)

/-- The retry loop of `executeWithRetry` (pool.go), unrolled over the
remaining `budget` of attempts, starting at attempt index `i`, with `last`
the value of the local variable `err` so far.  Returns the future store,
the error the surrounding `defer` will record in the collector (the
recovered panic wrapped by `panicError`, else the final non-nil `err`,
else nothing), and the number of attempts actually executed. -/
def retryLoop (t : Task) (i : Nat) (budget : Nat) (last : Option Err)
    (fs : List FutureSt) : List FutureSt × Option Err × Nat :=
  match budget with
  | 0 => (fs, last, 0)
  | b + 1 =>
      let r := runTaskOnce fs t i
      match r.2 with
      | Outcome.panics m => (r.1, some (panicError m), 1)
      | Outcome.ret none => (r.1, none, 1)
      | Outcome.ret (some e) =>
          let rest := retryLoop t (i + 1) b (some e) r.1
          (rest.1, rest.2.1, rest.2.2 + 1)

/-- `Pool.executeWithRetry` (pool.go): runs the loop
`for i := 0; i <= retry; i++` (so `retry + 1` attempts at most) and lets
the deferred recover/collect block append at most one error to the
collector.  Returns the future store, the collector, and the number of
attempts executed. -/
def executeWithRetry (retry : Nat) (t : Task) (fs : List FutureSt)
    (errs : List Err) : List FutureSt × List Err × Nat :=
  let r := retryLoop t 0 (retry + 1) none fs
  (r.1, errsAdd errs r.2.1, r.2.2)

namespace PoolState

/-- One iteration of `Pool.worker`'s receive case (pool.go): dequeue a
task, run `executeWithRetry`, then `wg.Done()`.  With an empty queue the
worker is blocked and nothing happens. -/
def workerStep (p : PoolState) : PoolState :=
  match p.queue with
  | [] => p
  | t :: rest =>
      let r := executeWithRetry p.retry t p.futures p.errs
      { p with
          queue := rest, futures := r.1, errs := r.2.1, wg := p.wg - 1 }

/-- `n` worker iterations. -/
def workerSteps (p : PoolState) : Nat → PoolState
  | 0 => p
  | n + 1 => workerSteps (workerStep p) n

/-- `sync.WaitGroup.Wait` returns exactly when the counter is zero; this
predicate is the condition under which the first line of `Pool.Wait`
returns. -/
def wgWaitReturns (p : PoolState) : Prop := p.wg = 0

/-- The body of `Pool.Wait` after `wg.Wait()` has returned (pool.go):
`once.Do(close(p.tasks))`.  Returns the new state and whether the `close`
panicked (it would exactly when the channel is already closed; the `once`
guard is meant to make that unreachable). -/
def waitClose (p : PoolState) : PoolState × Bool :=
  if p.onceUsed then (p, false)
  else ({ p with
            onceUsed := true, tasksClosed := true,
            closeCalls := p.closeCalls + 1 }, p.tasksClosed)

/-- `n` sequential completed `Wait` calls (each one past its
`wg.Wait()`). -/
def waitCloses (p : PoolState) : Nat → PoolState
  | 0 => p
  | n + 1 => waitCloses (waitClose p).1 n

end PoolState

/-- `SubmitWithResult` (README_ZH.md): creates a fresh future, wraps the
producer into a task completing that future, submits it, and — if `Submit`
returned an error — completes the future immediately with the zero value
and that error.  Returns the new state and the index of the future. -/
def SubmitWithResult (p : PoolState) (prod : ProdBeh) (enqOk : Bool) :
    PoolState × Nat :=
  let fid := p.futures.length
  let p1 : PoolState := { p with futures := p.futures ++ [newFuture] }
  let r := p1.Submit (Task.resultBearing fid prod) enqOk
  match r.2 with
  | none => (r.1, fid)
  | some e =>
      match r.1.futures.get? fid with
      | none => (r.1, fid)
      | some f =>
          let c := f.complete 0 (some e)
          ({ r.1 with futures := r.1.futures.set fid c.1 }, fid)

/-- An externally visible event of a pool run: a `Submit` call (with its
enqueue oracle) or one worker dequeue-and-finish iteration. -/
inductive Ev where
  | sub : Task → Bool → Ev
  | work : Ev

/-- Whether a `Submit` under policy `pol` with oracle `enqOk` enqueues the
task (as opposed to finishing synchronously by discarding/rejecting). -/
def subEnqueues (pol : QueueFullPolicy) (enqOk : Bool) : Bool :=
  match pol with
  | QueueFullPolicy.wait => true
  | _ => enqOk

/-- Run a list of events and count: the number of `Submit` calls `N` and
the number of finished task executions `F` (worker iterations that
actually dequeued a task, plus `Submit` calls that completed synchronously
by discarding or rejecting). -/
def runCounts (p : PoolState) : List Ev → PoolState × Nat × Nat
  | [] => (p, 0, 0)
  | Ev.sub t enqOk :: evs =>
      let r := runCounts (p.Submit t enqOk).1 evs
      (r.1, r.2.1 + 1,
       r.2.2 + (if subEnqueues p.policy enqOk then 0 else 1))
  | Ev.work :: evs =>
      let r := runCounts p.workerStep evs
      (r.1, r.2.1, r.2.2 + (if p.queue.isEmpty then 0 else 1))

/-- A task in the queue only refers to futures with index below `fid`. -/
def refsBelow (fid : Nat) : Task → Prop
  | Task.plain _ => True
  | Task.resultBearing g _ => g < fid

/-! Concrete behaviours and states used to exercise the theorems on
explicit inputs. -/

/-- A plain task behaviour that fails on every attempt. -/
def behAlwaysFail : PlainBeh := fun _ => Outcome.ret (some (Err.taskErr 0))

/-- A plain task behaviour that succeeds immediately. -/
def behOk : PlainBeh := fun _ => Outcome.ret none

/-- A plain task behaviour that fails once, then succeeds. -/
def behFailThenOk : PlainBeh := fun i =>
  if i = 0 then Outcome.ret (some (Err.taskErr 1)) else Outcome.ret none

/-- A plain task behaviour that panics on every attempt. -/
def behPanics : PlainBeh := fun _ => Outcome.panics "boom"

/-- A producer that always returns a non-nil error. -/
def prodAlwaysFails : ProdBeh := fun _ => ProdOutcome.ret 0 (some (Err.taskErr 7))

/-- A producer that panics on every attempt. -/
def prodPanics : ProdBeh := fun _ => ProdOutcome.panics "boom"

/-- A future completed once with value `42` and no error. -/
def completedFortyTwo : FutureSt := (newFuture.complete 42 none).1

/-- A pool with one worker, `retry = 1` and the default `Wait` policy,
after `SubmitWithResult` of an always-failing producer and one worker
iteration (the scenario in which the retry loop re-runs the wrapper). -/
def doubleCompletePool : PoolState :=
  ((SubmitWithResult (PoolState.New 1 1 QueueFullPolicy.wait 1)
      prodAlwaysFails true).1).workerStep

/-- A pool with `retry = 0`, after `SubmitWithResult` of a panicking
producer and one worker iteration. -/
def panicFuturePool : PoolState :=
  ((SubmitWithResult (PoolState.New 1 0 QueueFullPolicy.wait 0)
      prodPanics true).1).workerStep

/-! ## Lemmas about the retry loop -/

theorem retryLoop_allFail (beh : PlainBeh)
    (h : ∀ j, ∃ e, beh j = Outcome.ret (some e)) :
    ∀ (b i : Nat) (last : Option Err) (fs : List FutureSt),
      (retryLoop (Task.plain beh) i b last fs).2.2 = b := by
  intro b
  induction b with
  | zero => intro i last fs; rfl
  | succ b ih =>
      intro i last fs
      obtain ⟨e, he⟩ := h i
      simp [retryLoop, runTaskOnce, he, ih]

theorem retryLoop_firstSuccess (beh : PlainBeh) :
    ∀ (m b i : Nat) (last : Option Err) (fs : List FutureSt),
      m < b → beh (i + m) = Outcome.ret none →
      (∀ l, l < m → ∃ e, beh (i + l) = Outcome.ret (some e)) →
      (retryLoop (Task.plain beh) i b last fs).2.2 = m + 1 := by
  intro m
  induction m with
  | zero =>
      intro b i last fs hb hs _
      obtain ⟨b', rfl⟩ : ∃ b', b = b' + 1 := ⟨b - 1, by omega⟩
      rw [Nat.add_zero] at hs
      simp [retryLoop, runTaskOnce, hs]
  | succ m ih =>
      intro b i last fs hb hs hf
      obtain ⟨b', rfl⟩ : ∃ b', b = b' + 1 := ⟨b - 1, by omega⟩
      obtain ⟨e, he⟩ := hf 0 (Nat.succ_pos m)
      rw [Nat.add_zero] at he
      have hs' : beh (i + 1 + m) = Outcome.ret none := by
        rw [show i + 1 + m = i + (m + 1) by omega]; exact hs
      have hf' : ∀ l, l < m → ∃ e, beh (i + 1 + l) = Outcome.ret (some e) := by
        intro l hl
        obtain ⟨e', he'⟩ := hf (l + 1) (by omega)
        exact ⟨e', by rw [show i + 1 + l = i + (l + 1) by omega]; exact he'⟩
      have hrec := ih b' (i + 1) (some e) fs (by omega) hs' hf'
      simp [retryLoop, runTaskOnce, he, hrec]

/-- C2: for every task and every configured `retryCount k ≥ 0`, a task whose
every attempt fails is executed exactly `k + 1` times, and a task that first
succeeds on attempt `j ≤ k + 1` (attempts numbered from 1) is executed
exactly `j` times: the retry loop of `executeWithRetry` stops at the first
success. -/
theorem retry_exactness (k : Nat) (beh : PlainBeh) (fs : List FutureSt)
    (errs : List Err) :
    ((∀ j, ∃ e, beh j = Outcome.ret (some e)) →
      (executeWithRetry k (Task.plain beh) fs errs).2.2 = k + 1) ∧
    (∀ j, 1 ≤ j → j ≤ k + 1 → beh (j - 1) = Outcome.ret none →
      (∀ l, l < j - 1 → ∃ e, beh l = Outcome.ret (some e)) →
      (executeWithRetry k (Task.plain beh) fs errs).2.2 = j) := by
  constructor
  · intro h
    simpa [executeWithRetry] using retryLoop_allFail beh h (k + 1) 0 none fs
  · intro j h1 h2 hs hf
    have := retryLoop_firstSuccess beh (j - 1) (k + 1) 0 none fs
      (by omega) (by simpa using hs) (by simpa using hf)
    simpa [executeWithRetry, Nat.sub_add_cancel h1] using this

/-- Witness for C2: with `retryCount = 2`, an always-failing task runs 3
times, and a task failing once then succeeding runs twice. -/
theorem retry_exactness_witness :
    (executeWithRetry 2 (Task.plain behAlwaysFail) [] []).2.2 = 3 ∧
    (executeWithRetry 2 (Task.plain behFailThenOk) [] []).2.2 = 2 := by
  constructor
  · exact (retry_exactness 2 behAlwaysFail [] []).1
      (fun j => ⟨Err.taskErr 0, rfl⟩)
  · exact (retry_exactness 2 behFailThenOk [] []).2 2 (by omega) (by omega)
      rfl (by
        intro l hl
        have hl0 : l = 0 := by omega
        exact ⟨Err.taskErr 1, by rw [hl0]; rfl⟩)

/-- C5: under the `QueueFullReturnError` policy, when the non-blocking
enqueue fails, `Submit` reverses the `wg.Add(1)` increment (net counter
unchanged), leaves the queue untouched, records `ErrQueueFull` in the
error collector (so it appears in a subsequent `Errors` snapshot) and
returns that same error; on a successful enqueue it returns no error. -/
theorem submit_returnError_queueFull (p : PoolState) (t : Task)
    (h : p.policy = QueueFullPolicy.returnError) :
    ((p.Submit t false).2 = some Err.errQueueFull ∧
     (p.Submit t false).1.wg = p.wg ∧
     (p.Submit t false).1.queue = p.queue ∧
     (p.Submit t false).1.Errors = p.Errors ++ [Err.errQueueFull] ∧
     Err.errQueueFull ∈ (p.Submit t false).1.Errors) ∧
    (p.Submit t true).2 = none := by
  simp [PoolState.Submit, PoolState.Errors, errsAdd, h]

/-- Witness for C5: the concrete rejection scenario on a fresh
`ReturnError` pool. -/
theorem submit_returnError_queueFull_witness :
    (((PoolState.New 1 1 QueueFullPolicy.returnError 0).Submit
        (Task.plain behOk) false).2 = some Err.errQueueFull ∧
     ((PoolState.New 1 1 QueueFullPolicy.returnError 0).Submit
        (Task.plain behOk) false).1.wg = 0 ∧
     Err.errQueueFull ∈ ((PoolState.New 1 1 QueueFullPolicy.returnError 0).Submit
        (Task.plain behOk) false).1.Errors) := by
  have h := submit_returnError_queueFull
    (PoolState.New 1 1 QueueFullPolicy.returnError 0) (Task.plain behOk) rfl
  exact ⟨h.1.1, h.1.2.1, h.1.2.2.2.2⟩

/-- C6: under the `QueueFullDiscard` policy, when the non-blocking enqueue
fails, `Submit` reverses the increment and returns no error, and the
resulting pool state is unchanged: the task was never enqueued (hence is
never executed) and nothing was recorded in the error collector.
Moreover `Submit` under this policy returns no error for either oracle
outcome. -/
theorem submit_discard_queueFull (p : PoolState) (t : Task)
    (h : p.policy = QueueFullPolicy.discard) :
    p.Submit t false = (p, none) ∧
    (∀ enqOk, (p.Submit t enqOk).2 = none) := by
  constructor
  · cases p
    simp_all [PoolState.Submit]
  · intro enqOk
    cases enqOk <;> simp [PoolState.Submit, h]

/-- Witness for C6: the concrete drop scenario on a fresh `Discard`
pool. -/
theorem submit_discard_queueFull_witness :
    (PoolState.New 1 1 QueueFullPolicy.discard 0).Submit
      (Task.plain behOk) false = (PoolState.New 1 1 QueueFullPolicy.discard 0, none) :=
  (submit_discard_queueFull (PoolState.New 1 1 QueueFullPolicy.discard 0)
    (Task.plain behOk) rfl).1

/-- C7 counterexample: `Get` on an already-completed future holding
`(42, nil)`, called with a context that is already done, can return the
zero value and the context's error instead of the stored pair (the Go
`select` picks among ready cases pseudo-randomly; `pick = true` resolves
the race in favour of `ctx.Done()`).  So "every subsequent Get call …
with any context returns the same stored value and error pair" is false
as stated. -/
theorem get_canceled_ctx_counterexample :
    completedFortyTwo.done = true ∧
    completedFortyTwo.result = 42 ∧
    completedFortyTwo.err = none ∧
    completedFortyTwo.get true true = GetResult.value 0 (some Err.ctxCanceled) ∧
    completedFortyTwo.get true true ≠
      GetResult.value completedFortyTwo.result completedFortyTwo.err := by
  refine ⟨rfl, rfl, rfl, rfl, ?_⟩
  decide

/-- C7 (amended): once a future is completed, every subsequent `Get`
whose context is not yet done returns the stored value and error pair —
the same pair for every caller and every number of calls — and a `Get`
whose context is already done returns either the stored pair or the zero
value with the context's cancellation error, depending on how the
`select` race resolves. -/
theorem get_after_completion (f : FutureSt) (hdone : f.done = true)
    (ctxDone pick : Bool) :
    (ctxDone = false → f.get ctxDone pick = GetResult.value f.result f.err) ∧
    (f.get ctxDone pick = GetResult.value f.result f.err ∨
     f.get ctxDone pick = GetResult.value 0 (some Err.ctxCanceled)) := by
  cases ctxDone <;> cases pick <;> simp [FutureSt.get, hdone]

/-- Witness for C7's amended theorem, at the concrete completed future. -/
theorem get_after_completion_witness :
    completedFortyTwo.get false false =
      GetResult.value completedFortyTwo.result completedFortyTwo.err :=
  (get_after_completion completedFortyTwo rfl false false).1 rfl

/-- C3 (evidence of a code bug): with `retryCount = 1` and a producer that
always returns a non-nil error, the wrapper task built by
`SubmitWithResult` runs its deferred completion once per attempt — after
one worker iteration the future's `complete` has been invoked twice (the
second invocation overwrites `result`/`err` and then panics closing the
already-closed `done` channel; the worker's recover turns that panic into
a collected `task panic: close of closed channel` error).  A second
invocation of `complete` is therefore reachable, contradicting the
intended single-completion discipline. -/
theorem complete_called_twice_under_retry :
    (doubleCompletePool.futures.get? 0).map FutureSt.completeCalls = some 2 ∧
    doubleCompletePool.errs = [panicError closedChanMsg] := ⟨rfl, rfl⟩

/-- C4 counterexample: a result-bearing task whose producer panics leaves
the error collector empty — the wrapper's own deferred recover consumes
the panic, delivers the synthetic error to the future, and returns `nil`
(the zero value of the wrapper's unnamed `error` result), so
`executeWithRetry` records nothing.  The claim that such a panic puts
exactly one synthetic error in the Error Collector is false as stated. -/
theorem resultBearing_panic_uncollected :
    panicFuturePool.errs = [] ∧
    panicFuturePool.futures.get? 0 =
      some { result := 0, err := some (panicError "boom"), done := true,
             completeCalls := 1 } := ⟨rfl, rfl⟩

/-! Helper equations of `executeWithRetry` on first-attempt outcomes. -/

theorem executeWithRetry_plain_ok (k : Nat) (beh : PlainBeh)
    (h : beh 0 = Outcome.ret none) (fs : List FutureSt) (errs : List Err) :
    executeWithRetry k (Task.plain beh) fs errs = (fs, errs, 1) := by
  simp [executeWithRetry, retryLoop, runTaskOnce, h, errsAdd]

theorem executeWithRetry_plain_panics (k : Nat) (beh : PlainBeh) (m : String)
    (h : beh 0 = Outcome.panics m) (fs : List FutureSt) (errs : List Err) :
    executeWithRetry k (Task.plain beh) fs errs =
      (fs, errs ++ [panicError m], 1) := by
  simp [executeWithRetry, retryLoop, runTaskOnce, h, errsAdd]

theorem executeWithRetry_resultBearing_panics (k fid : Nat) (prod : ProdBeh)
    (m : String) (h : prod 0 = ProdOutcome.panics m) (fs : List FutureSt)
    (hf : fs.get? fid = some newFuture) (errs : List Err) :
    executeWithRetry k (Task.resultBearing fid prod) fs errs =
      (fs.set fid { result := 0, err := some (panicError m), done := true,
                    completeCalls := 1 }, errs, 1) := by
  rw [List.get?_eq_getElem?] at hf
  simp [executeWithRetry, retryLoop, runTaskOnce, h, hf, errsAdd,
    FutureSt.complete, newFuture]

/-- Draining a queue of immediately-succeeding plain tasks empties the
queue and touches neither the error collector nor the futures. -/
theorem drain_succeeding (ts : List PlainBeh) :
    ∀ (p : PoolState), p.queue = List.map Task.plain ts →
      (∀ c ∈ ts, c 0 = Outcome.ret none) →
      (p.workerSteps ts.length).queue = [] ∧
      (p.workerSteps ts.length).errs = p.errs ∧
      (p.workerSteps ts.length).futures = p.futures := by
  induction ts with
  | nil =>
      intro p hq _
      exact ⟨hq, rfl, rfl⟩
  | cons c ts ih =>
      intro p hq hok
      have hc : c 0 = Outcome.ret none := hok c (by simp)
      have hstep : p.workerStep =
          { p with queue := List.map Task.plain ts, wg := p.wg - 1 } := by
        simp [PoolState.workerStep, hq, executeWithRetry_plain_ok p.retry c hc]
      have hrec := ih { p with queue := List.map Task.plain ts, wg := p.wg - 1 }
        rfl (fun d hd => hok d (by simp [hd]))
      have hunfold : PoolState.workerSteps p (ts.length + 1)
          = PoolState.workerSteps p.workerStep ts.length := rfl
      rw [List.length_cons, hunfold, hstep]
      exact hrec

/-- C4 (amended): a plain task that panics results in exactly one synthetic
error recorded in the Error Collector, and the worker survives and
processes all subsequently dequeued tasks; a result-bearing task whose
producer panics has its synthetic error delivered to its Future instead —
nothing is recorded in the Error Collector — and the worker likewise
survives and processes all subsequent tasks. -/
theorem panic_isolation (m : String) (behP : PlainBeh)
    (hP : behP 0 = Outcome.panics m)
    (ts : List PlainBeh) (hts : ∀ c ∈ ts, c 0 = Outcome.ret none)
    (p : PoolState) (hq : p.queue = Task.plain behP :: List.map Task.plain ts)
    (he : p.errs = []) :
    ((p.workerSteps (ts.length + 1)).errs = [panicError m] ∧
     (p.workerSteps (ts.length + 1)).queue = []) ∧
    (∀ (prod : ProdBeh), prod 0 = ProdOutcome.panics m →
      ∀ (q : PoolState) (fid : Nat),
        q.queue = Task.resultBearing fid prod :: List.map Task.plain ts →
        q.errs = [] → q.futures.get? fid = some newFuture →
        (q.workerSteps (ts.length + 1)).errs = [] ∧
        (q.workerSteps (ts.length + 1)).queue = [] ∧
        (q.workerSteps (ts.length + 1)).futures.get? fid =
          some { result := 0, err := some (panicError m), done := true,
                 completeCalls := 1 }) := by
  constructor
  · have hstep : p.workerStep =
        { p with queue := List.map Task.plain ts,
                 errs := [panicError m], wg := p.wg - 1 } := by
      simp [PoolState.workerStep, hq, he,
        executeWithRetry_plain_panics p.retry behP m hP]
    have hrec := drain_succeeding ts
      { p with queue := List.map Task.plain ts,
               errs := [panicError m], wg := p.wg - 1 }
      rfl hts
    have hunfold : PoolState.workerSteps p (ts.length + 1)
        = PoolState.workerSteps p.workerStep ts.length := rfl
    rw [hunfold, hstep]
    exact ⟨hrec.2.1, hrec.1⟩
  · intro prod hprod q fid hq' he' hf'
    have hfid : fid < q.futures.length := by
      have := List.get?_eq_getElem? q.futures fid
      rw [this] at hf'
      exact (List.getElem?_eq_some.mp hf').1
    have hstep : q.workerStep =
        { q with queue := List.map Task.plain ts,
                 futures := q.futures.set fid
                   { result := 0, err := some (panicError m), done := true,
                     completeCalls := 1 },
                 wg := q.wg - 1 } := by
      simp [PoolState.workerStep, hq', he',
        executeWithRetry_resultBearing_panics q.retry fid prod m hprod
          q.futures hf']
    have hrec := drain_succeeding ts
      { q with queue := List.map Task.plain ts,
               futures := q.futures.set fid
                 { result := 0, err := some (panicError m), done := true,
                   completeCalls := 1 },
               wg := q.wg - 1 }
      rfl hts
    have hunfold : PoolState.workerSteps q (ts.length + 1)
        = PoolState.workerSteps q.workerStep ts.length := rfl
    rw [hunfold, hstep]
    refine ⟨by rw [hrec.2.1]; exact he', hrec.1, ?_⟩
    rw [hrec.2.2]
    simp [List.get?_eq_getElem?, List.getElem?_set_self hfid]

/-- Witness for C4's amended theorem: a panicking plain task followed by
one succeeding task, and a panicking producer followed by the same
succeeding task, on concrete pools. -/
theorem panic_isolation_witness :
    (({ PoolState.New 1 0 QueueFullPolicy.wait 0 with
          queue := [Task.plain behPanics, Task.plain behOk],
          wg := 2 } : PoolState).workerSteps 2).errs = [panicError "boom"] ∧
    (({ PoolState.New 1 0 QueueFullPolicy.wait 0 with
          queue := [Task.resultBearing 0 prodPanics, Task.plain behOk],
          wg := 2, futures := [newFuture] } : PoolState).workerSteps 2).errs
      = [] := by
  have h := panic_isolation "boom" behPanics rfl [behOk]
    (by intro c hc; simp at hc; rw [hc]; rfl)
    { PoolState.New 1 0 QueueFullPolicy.wait 0 with
        queue := [Task.plain behPanics, Task.plain behOk], wg := 2 }
    rfl rfl
  refine ⟨h.1.1, ?_⟩
  exact (h.2 prodPanics rfl
    { PoolState.New 1 0 QueueFullPolicy.wait 0 with
        queue := [Task.resultBearing 0 prodPanics, Task.plain behOk],
        wg := 2, futures := [newFuture] } 0 rfl rfl rfl).1

/-! ## Lemmas about submission and worker bookkeeping -/

theorem Submit_wg_queue (p : PoolState) (t : Task) (enqOk : Bool) :
    (subEnqueues p.policy enqOk = true →
      (p.Submit t enqOk).1.wg = p.wg + 1 ∧
      (p.Submit t enqOk).1.queue = p.queue ++ [t]) ∧
    (subEnqueues p.policy enqOk = false →
      (p.Submit t enqOk).1.wg = p.wg ∧
      (p.Submit t enqOk).1.queue = p.queue) := by
  cases hpol : p.policy <;> cases enqOk <;>
    simp [PoolState.Submit, subEnqueues, hpol]

theorem workerStep_empty (p : PoolState) (h : p.queue = []) :
    p.workerStep = p := by
  simp [PoolState.workerStep, h]

theorem workerStep_cons (p : PoolState) (t : Task) (rest : List Task)
    (h : p.queue = t :: rest) :
    p.workerStep.wg = p.wg - 1 ∧ p.workerStep.queue = rest := by
  simp [PoolState.workerStep, h]

/-- The accounting invariant: whenever the outstanding counter equals the
queue length, it still does after any event sequence, and the number of
finished executions plus the remaining counter equals the number of
`Submit` calls plus the initial counter. -/
theorem runCounts_invariant :
    ∀ (evs : List Ev) (p : PoolState), p.wg = p.queue.length →
      (runCounts p evs).1.wg = (runCounts p evs).1.queue.length ∧
      (runCounts p evs).2.2 + (runCounts p evs).1.wg
        = (runCounts p evs).2.1 + p.wg := by
  intro evs
  induction evs with
  | nil => intro p hp; exact ⟨hp, rfl⟩
  | cons ev evs ih =>
      intro p hp
      cases ev with
      | sub t enqOk =>
          have hg1 : (runCounts p (Ev.sub t enqOk :: evs)).1
              = (runCounts (p.Submit t enqOk).1 evs).1 := rfl
          have hg2 : (runCounts p (Ev.sub t enqOk :: evs)).2.1
              = (runCounts (p.Submit t enqOk).1 evs).2.1 + 1 := rfl
          have hg3 : (runCounts p (Ev.sub t enqOk :: evs)).2.2
              = (runCounts (p.Submit t enqOk).1 evs).2.2 +
                (if subEnqueues p.policy enqOk then 0 else 1) := rfl
          rw [hg1, hg2, hg3]
          cases hse : subEnqueues p.policy enqOk with
          | true =>
              have h1 := (Submit_wg_queue p t enqOk).1 hse
              have hrec := ih (p.Submit t enqOk).1
                (by rw [h1.1, h1.2]; simp [hp])
              rw [show (if (true = true) then (0 : Nat) else 1) = 0 from rfl]
              refine ⟨hrec.1, ?_⟩
              have hwg := h1.1
              omega
          | false =>
              have h1 := (Submit_wg_queue p t enqOk).2 hse
              have hrec := ih (p.Submit t enqOk).1 (by rw [h1.1, h1.2]; exact hp)
              rw [show (if (false = true) then (0 : Nat) else 1) = 1 from rfl]
              refine ⟨hrec.1, ?_⟩
              have hwg := h1.1
              omega
      | work =>
          have hg1 : (runCounts p (Ev.work :: evs)).1
              = (runCounts p.workerStep evs).1 := rfl
          have hg2 : (runCounts p (Ev.work :: evs)).2.1
              = (runCounts p.workerStep evs).2.1 := rfl
          have hg3 : (runCounts p (Ev.work :: evs)).2.2
              = (runCounts p.workerStep evs).2.2 +
                (if p.queue.isEmpty then 0 else 1) := rfl
          rw [hg1, hg2, hg3]
          cases hq : p.queue with
          | nil =>
              have hfix := workerStep_empty p hq
              have hrec := ih p.workerStep (by rw [hfix]; exact hp)
              rw [hfix] at hrec ⊢
              rw [show (if (([] : List Task).isEmpty = true) then (0 : Nat) else 1)
                    = 0 from rfl]
              refine ⟨hrec.1, ?_⟩
              omega
          | cons t rest =>
              have h1 := workerStep_cons p t rest hq
              have hwgpos : 1 ≤ p.wg := by
                rw [hp, hq]; simp
              have hrec := ih p.workerStep
                (by rw [h1.1, h1.2, hp, hq]; simp)
              rw [show (if ((t :: rest).isEmpty = true) then (0 : Nat) else 1)
                    = 1 from rfl]
              refine ⟨hrec.1, ?_⟩
              have hwg := h1.1
              omega

/-- C1: starting from a fresh pool, for every sequence of `Submit` calls
(each accepted: enqueued, or synchronously rejected/discarded with the
increment reversed) and worker completions, the outstanding `WaitGroup`
counter is zero exactly when the number of finished task executions
(worker completions plus submissions that completed synchronously) equals
the number of `Submit` calls — and `wg.Wait()`, hence `Wait`, returns
exactly under that condition. -/
theorem accounting_wait_iff (workerNum queueSize : Nat)
    (policy : QueueFullPolicy) (retry : Nat) (evs : List Ev) :
    ((runCounts (PoolState.New workerNum queueSize policy retry) evs).1.wg = 0
      ↔ (runCounts (PoolState.New workerNum queueSize policy retry) evs).2.2
        = (runCounts (PoolState.New workerNum queueSize policy retry) evs).2.1)
    ∧ (PoolState.wgWaitReturns
        (runCounts (PoolState.New workerNum queueSize policy retry) evs).1
      ↔ (runCounts (PoolState.New workerNum queueSize policy retry) evs).2.2
        = (runCounts (PoolState.New workerNum queueSize policy retry) evs).2.1)
    := by
  have h := runCounts_invariant evs (PoolState.New workerNum queueSize policy retry) rfl
  have hz : (PoolState.New workerNum queueSize policy retry).wg = 0 := rfl
  unfold PoolState.wgWaitReturns
  constructor <;> (constructor <;> intro <;> omega)

/-! ## Lemmas about `Wait`'s single-shot close -/

theorem waitClose_fixed (p : PoolState) (h : p.onceUsed = true) :
    p.waitClose = (p, false) := by
  simp [PoolState.waitClose, h]

theorem waitCloses_fixed (p : PoolState) (h : p.onceUsed = true) :
    ∀ n, p.waitCloses n = p := by
  intro n
  induction n with
  | zero => rfl
  | succ n ih =>
      show PoolState.waitCloses (p.waitClose).1 n = p
      rw [waitClose_fixed p h]
      exact ih

/-- C8: on a pool whose queue has not yet been closed, once the counter
has reached zero (`wg.Wait()` has returned), any number `n ≥ 1` of
sequential `Wait` calls performs the `close` exactly once (the ghost
`closeCalls` rises by exactly one), leaves the queue closed, keeps the
counter at zero (each call returns only with all accepted tasks
finished), and a further call changes nothing and does not panic — the
`sync.Once` guard never lets a second close be attempted. -/
theorem wait_close_once (p : PoolState) (h0 : p.onceUsed = false)
    (h1 : p.tasksClosed = false) (hwg : PoolState.wgWaitReturns p) :
    p.waitClose.2 = false ∧
    (∀ n, 1 ≤ n →
      (p.waitCloses n).closeCalls = p.closeCalls + 1 ∧
      (p.waitCloses n).tasksClosed = true ∧
      (p.waitCloses n).wg = 0 ∧
      (p.waitCloses n).waitClose = (p.waitCloses n, false)) := by
  have hfirst : p.waitClose =
      ({ p with
           onceUsed := true, tasksClosed := true,
           closeCalls := p.closeCalls + 1 }, false) := by
    simp [PoolState.waitClose, h0, h1]
  refine ⟨by rw [hfirst], ?_⟩
  intro n hn
  obtain ⟨n', rfl⟩ : ∃ n', n = n' + 1 := ⟨n - 1, by omega⟩
  have hall : p.waitCloses (n' + 1) =
      { p with
          onceUsed := true, tasksClosed := true,
          closeCalls := p.closeCalls + 1 } := by
    show PoolState.waitCloses (p.waitClose).1 n' = _
    rw [hfirst]
    exact waitCloses_fixed _ rfl n'
  rw [hall]
  exact ⟨rfl, rfl, hwg, waitClose_fixed _ rfl⟩

/-- Witness for C8: two sequential `Wait` calls on a fresh pool close the
queue exactly once. -/
theorem wait_close_once_witness :
    ((PoolState.New 1 0 QueueFullPolicy.wait 0).waitCloses 2).closeCalls = 1 ∧
    ((PoolState.New 1 0 QueueFullPolicy.wait 0).waitCloses 2).tasksClosed
      = true := by
  have h := wait_close_once (PoolState.New 1 0 QueueFullPolicy.wait 0)
    rfl rfl rfl
  exact ⟨(h.2 2 (by omega)).1, (h.2 2 (by omega)).2.1⟩

/-- C9: when `Submit` rejects the wrapped task (queue full under the
`ReturnError` policy), `SubmitWithResult` completes the returned future
immediately with the zero value and the rejection error `ErrQueueFull`
(a single `complete` invocation), and the wrapped task is never enqueued
— the queue is unchanged, so nothing can ever invoke the producer. -/
theorem submitWithResult_rejected_completes (p : PoolState) (prod : ProdBeh)
    (h : p.policy = QueueFullPolicy.returnError) :
    (SubmitWithResult p prod false).1.queue = p.queue ∧
    (SubmitWithResult p prod false).2 = p.futures.length ∧
    (SubmitWithResult p prod false).1.futures.get? p.futures.length =
      some { result := 0, err := some Err.errQueueFull, done := true,
             completeCalls := 1 } := by
  have hget : (p.futures ++ [newFuture]).get? p.futures.length
      = some newFuture := by
    rw [List.get?_eq_getElem?]
    exact List.getElem?_concat_length p.futures newFuture
  have hlt : p.futures.length < (p.futures ++ [newFuture]).length := by
    simp
  simp only [SubmitWithResult, PoolState.Submit, h, Bool.false_eq_true,
    if_false, hget]
  refine ⟨trivial, trivial, ?_⟩
  rw [List.get?_eq_getElem?]
  simp [FutureSt.complete, newFuture, List.getElem?_set_self hlt]

/-- Witness for C9: the concrete rejection scenario on a fresh
`ReturnError` pool with an always-failing producer. -/
theorem submitWithResult_rejected_completes_witness :
    (SubmitWithResult (PoolState.New 1 1 QueueFullPolicy.returnError 0)
        prodAlwaysFails false).1.futures.get? 0 =
      some { result := 0, err := some Err.errQueueFull, done := true,
             completeCalls := 1 } :=
  (submitWithResult_rejected_completes
    (PoolState.New 1 1 QueueFullPolicy.returnError 0) prodAlwaysFails rfl).2.2

/-! ## Futures not referenced by any queued task stay untouched -/

theorem runTaskOnce_get?_frozen (fs : List FutureSt) (t : Task) (i fid : Nat)
    (h : refsBelow fid t) :
    (runTaskOnce fs t i).1.get? fid = fs.get? fid := by
  cases t with
  | plain beh => rfl
  | resultBearing g prod =>
      have hne : g ≠ fid := Nat.ne_of_lt h
      rw [List.get?_eq_getElem?]
      cases hg : fs.get? g with
      | none =>
          rw [List.get?_eq_getElem?] at hg
          simp [runTaskOnce, hg]
      | some f =>
          rw [List.get?_eq_getElem?] at hg
          cases hp : prod i with
          | ret v e =>
              simp [runTaskOnce, hg, hp, List.get?_eq_getElem?,
                List.getElem?_set_ne hne]
          | panics m =>
              simp [runTaskOnce, hg, hp, List.get?_eq_getElem?,
                List.getElem?_set_ne hne]

theorem retryLoop_get?_frozen (t : Task) (fid : Nat) (h : refsBelow fid t) :
    ∀ (b i : Nat) (last : Option Err) (fs : List FutureSt),
      (retryLoop t i b last fs).1.get? fid = fs.get? fid := by
  intro b
  induction b with
  | zero => intro i last fs; rfl
  | succ b ih =>
      intro i last fs
      have hfreeze := runTaskOnce_get?_frozen fs t i fid h
      cases hr : (runTaskOnce fs t i).2 with
      | panics m =>
          simp only [retryLoop, hr]
          exact hfreeze
      | ret oe =>
          cases oe with
          | none =>
              simp only [retryLoop, hr]
              exact hfreeze
          | some e =>
              simp only [retryLoop, hr]
              rw [ih (i + 1) (some e) (runTaskOnce fs t i).1]
              exact hfreeze

theorem workerStep_get?_frozen (p : PoolState) (fid : Nat)
    (h : ∀ t ∈ p.queue, refsBelow fid t) :
    p.workerStep.futures.get? fid = p.futures.get? fid ∧
    ∀ t ∈ p.workerStep.queue, refsBelow fid t := by
  cases hq : p.queue with
  | nil =>
      rw [workerStep_empty p hq]
      exact ⟨rfl, by rw [hq]; intro t ht; cases ht⟩
  | cons t rest =>
      have hstep : p.workerStep =
          { p with
              queue := rest,
              futures := (executeWithRetry p.retry t p.futures p.errs).1,
              errs := (executeWithRetry p.retry t p.futures p.errs).2.1,
              wg := p.wg - 1 } := by
        simp [PoolState.workerStep, hq]
      rw [hstep]
      constructor
      · show (executeWithRetry p.retry t p.futures p.errs).1.get? fid
            = p.futures.get? fid
        unfold executeWithRetry
        exact retryLoop_get?_frozen t fid (h t (by rw [hq]; simp))
          (p.retry + 1) 0 none p.futures
      · intro u hu
        exact h u (by rw [hq]; exact List.mem_cons_of_mem t hu)

theorem workerSteps_get?_frozen (fid : Nat) :
    ∀ (n : Nat) (p : PoolState), (∀ t ∈ p.queue, refsBelow fid t) →
      (p.workerSteps n).futures.get? fid = p.futures.get? fid := by
  intro n
  induction n with
  | zero => intro p _; rfl
  | succ n ih =>
      intro p h
      have hw := workerStep_get?_frozen p fid h
      calc (p.workerSteps (n + 1)).futures.get? fid
          = (p.workerStep.workerSteps n).futures.get? fid := rfl
        _ = p.workerStep.futures.get? fid := ih p.workerStep hw.2
        _ = p.futures.get? fid := hw.1

/-- C10 (implicit): under the `Discard` policy, when the wrapper task built
by `SubmitWithResult` is dropped at admission (non-blocking enqueue fails),
`Submit` returns `nil`, so `complete` is never invoked on the returned
future: the queue is unchanged, after any number of worker iterations the
future is still the pending `newFuture` (done unset, zero `complete`
invocations), and a `Get` on it blocks unless the reader's own context is
done, in which case it returns the zero value and the context error. -/
theorem discard_drop_future_pending (p : PoolState) (prod : ProdBeh)
    (h : p.policy = QueueFullPolicy.discard)
    (hwf : ∀ t ∈ p.queue, refsBelow p.futures.length t) :
    (SubmitWithResult p prod false).1.queue = p.queue ∧
    (∀ n, ((SubmitWithResult p prod false).1.workerSteps n).futures.get?
        (SubmitWithResult p prod false).2 = some newFuture) ∧
    newFuture.done = false ∧ newFuture.completeCalls = 0 ∧
    (∀ pick, newFuture.get false pick = GetResult.blocked) ∧
    (∀ pick, newFuture.get true pick =
      GetResult.value 0 (some Err.ctxCanceled)) := by
  have hsub : SubmitWithResult p prod false
      = ({ p with futures := p.futures ++ [newFuture] }, p.futures.length) := by
    cases p
    simp_all [SubmitWithResult, PoolState.Submit]
  rw [hsub]
  refine ⟨rfl, ?_, rfl, rfl, fun pick => rfl, fun pick => by cases pick <;> rfl⟩
  intro n
  have hfr := workerSteps_get?_frozen p.futures.length n
    { p with futures := p.futures ++ [newFuture] } hwf
  rw [hfr]
  show (p.futures ++ [newFuture]).get? p.futures.length = some newFuture
  rw [List.get?_eq_getElem?]
  exact List.getElem?_concat_length p.futures newFuture

/-- Witness for C10: a dropped result-bearing submission on a fresh
`Discard` pool leaves its future pending after three worker iterations,
and `Get` on the pending future blocks while the context is alive. -/
theorem discard_drop_future_pending_witness :
    ((SubmitWithResult (PoolState.New 1 1 QueueFullPolicy.discard 0)
        prodAlwaysFails false).1.workerSteps 3).futures.get? 0
      = some newFuture ∧
    newFuture.get false false = GetResult.blocked := by
  have h := discard_drop_future_pending
    (PoolState.New 1 1 QueueFullPolicy.discard 0) prodAlwaysFails rfl
    (by intro t ht; cases ht)
  exact ⟨h.2.1 3, h.2.2.2.2.1 false⟩

end Gopoolx
